import Mathlib

/-!
Verification of the LInQer `Enumerable` core (`LInQer.Slim.ts`): a shallow
embedding of the sequence-handle data model, the lazy capability resolvers
(`_ensureInternalCount`, `_ensureInternalTryGetAt`) and the capability-aware
operation set (`concat`, `take`, `skip`, `splice`, `select`, `elementAt`,
`count`, `length`, `toArray`, `stats`, `sum`, `min`, `max`), together with
theorems settling the specification's claims about them.

Modelling conventions:
* JS values flowing through sequences are modelled by `Linqer.Val`
  (numbers restricted to integers, a separate NaN, strings, `undefined`).
* A JS generator here is a replayable pure sequence, so a generator function
  source is modelled by the list of values one iteration session yields; the
  `_generator` field of the class is the derived function `Linqer.iterate`.
* The in-place mutation performed by the resolvers is modelled by functions
  `Enumerable → Enumerable` returning the updated handle (the mutated inner
  handle is written back into the `_src` field, modelling the shared
  reference).
* Methods that `throw` return `Except Linqer.Err`.
-/

set_option autoImplicit false

namespace Linqer

/-- JS values carried by sequences: integer-restricted numbers, the NaN
number, strings and `undefined`. -/
inductive Val where
  | num : Int → Val
  | nan : Val
  | str : String → Val
  | undef : Val
  deriving DecidableEq, Repr

/-- The error taxonomy of the library (each `throw new Error(...)` site). -/
inductive Err where
  | invalidSource
  | invalidArgument
  | indexOutOfRange
  | emptySequence
  | unsupportedEagerAccess
  | rangeError
  deriving DecidableEq, Repr

deriving instance DecidableEq for Except

/-- Shape of a constructor source: a raw array, a string, a zero-argument
generator function (modelled by the sequence it yields), or a nested
`Enumerable` (`H` is instantiated with `Enumerable` below). -/
inductive SrcF (H : Type) where
  | arr : List Val → SrcF H
  | str : String → SrcF H
  | genFn : List Val → SrcF H
  | handle : H → SrcF H

/-- The `Enumerable` class: `_src`, `_useQuickSort`, `_canSeek`, `_count`,
`_tryGetAt`, `_wasIterated` (declaration order of the class fields;
`_generator` is derived from `_src`, see `iterate`). -/
inductive Enumerable where
  | mk : SrcF Enumerable → Bool → Bool → Option (Unit → Int) →
      Option (Int → Option Val) → Bool → Enumerable

/-- Sources as they appear at the constructor. -/
abbrev Src := SrcF Enumerable

def Enumerable._src : Enumerable → Src
  | .mk s _ _ _ _ _ => s

def Enumerable._useQuickSort : Enumerable → Bool
  | .mk _ q _ _ _ _ => q

def Enumerable._canSeek : Enumerable → Bool
  | .mk _ _ c _ _ _ => c

def Enumerable._count : Enumerable → Option (Unit → Int)
  | .mk _ _ _ c _ _ => c

def Enumerable._tryGetAt : Enumerable → Option (Int → Option Val)
  | .mk _ _ _ _ t _ => t

def Enumerable._wasIterated : Enumerable → Bool
  | .mk _ _ _ _ _ w => w

/-- One iteration session over a handle: what the `_generator` yields.
A string iterates as its characters (each a one-character string); a nested
handle iterates as the inner handle. -/
def iterate : Enumerable → List Val
  | .mk (.arr l) _ _ _ _ _ => l
  | .mk (.str s) _ _ _ _ _ => s.data.map (fun c => Val.str (String.singleton c))
  | .mk (.genFn l) _ _ _ _ _ => l
  | .mk (.handle h) _ _ _ _ _ => iterate h

/-- JS `String.prototype.charAt`: the one-character string at `index`, or the
empty string when `index` is out of range (including every negative index). -/
def charAt (s : String) (index : Int) : String :=
  if h : 0 ≤ index ∧ index.toNat < s.data.length then
    String.singleton (s.data.get ⟨index.toNat, h.2⟩)
  else ""

/-- The linear-scan fallback indexer of `_ensureInternalTryGetAt`: walk the
iteration with a counter `x`, returning the item whose position equals
`index` (never matched by a negative `index`). -/
def scanTryGetAt : List Val → Int → Int → Option Val
  | [], _, _ => none
  | item :: rest, index, x =>
    if index = x then some item else scanTryGetAt rest index (x + 1)

/-- `e._tryGetAt!(index)`: call the resolved indexer (junk `none` when the
field is still unresolved, which never happens after resolution). -/
def callTryGetAt (e : Enumerable) (index : Int) : Option Val :=
  match e._tryGetAt with
  | some f => f index
  | none => none

/-- `e._count!()`: call the resolved count function (junk `0` when the field
is still unresolved, which never happens after resolution). -/
def callCount (e : Enumerable) : Int :=
  match e._count with
  | some f => f ()
  | none => 0

/-- `new Enumerable(src)` on a source that passed `_ensureIterable`: store
the source, inherit `_useQuickSort` from an `Enumerable` source (default
`true`), leave every capability field unresolved, `_wasIterated` false. -/
def mkEnumerable (src : Src) : Enumerable :=
  .mk src
    (match src with
     | .handle h => h._useQuickSort
     | _ => true)
    false none none false

/-- `_ensureInternalCount`: memoize the most appropriate count strategy.
Branch order of the source: already resolved; nested `Enumerable`
(delegate); a source with a numeric `length` that is not a function (arrays
and strings); otherwise iterate and count. -/
def _ensureInternalCount (e : Enumerable) : Enumerable :=
  match e with
  | .mk src uq cs cnt tga wi =>
    match cnt with
    | some _ => e
    | none =>
      match src with
      | .handle inner =>
        let inner1 := _ensureInternalCount inner
        .mk (.handle inner1) uq cs (some (fun _ => callCount inner1)) tga wi
      | .str s => .mk src uq cs (some (fun _ => (s.data.length : Int))) tga wi
      | .arr l => .mk src uq cs (some (fun _ => (l.length : Int))) tga wi
      | .genFn _ => .mk src uq cs (some (fun _ => ((iterate e).length : Int))) tga wi

/-- `_ensureInternalTryGetAt`: memoize the indexer and settle `_canSeek`.
Branch order of the source: already resolved; nested `Enumerable`
(delegate indexer and seek flag); string (`charAt`, guarded only by
`index < length`); array (guarded by `0 ≤ index < length`); otherwise not
seekable, linear-scan fallback. -/
def _ensureInternalTryGetAt (e : Enumerable) : Enumerable :=
  match e with
  | .mk src uq _ cnt tga wi =>
    match tga with
    | some _ => e
    | none =>
      match src with
      | .handle inner =>
        let inner1 := _ensureInternalTryGetAt inner
        .mk (.handle inner1) uq inner1._canSeek cnt
          (some (fun index => callTryGetAt inner1 index)) wi
      | .str s =>
        .mk src uq true cnt
          (some (fun index =>
            if index < (s.data.length : Int) then some (.str (charAt s index))
            else none)) wi
      | .arr l =>
        .mk src uq true cnt
          (some (fun index =>
            if 0 ≤ index ∧ index < (l.length : Int) then l.get? index.toNat
            else none)) wi
      | .genFn L =>
        .mk src uq false cnt (some (fun index => scanTryGetAt L index 0)) wi

/-- Public `count()`: resolve the count strategy, then call it. -/
def Enumerable.count (self : Enumerable) : Int :=
  callCount (_ensureInternalCount self)

/-- The resolved internal indexer of a handle (resolve, then look up). -/
def tryGetAtR (self : Enumerable) (index : Int) : Option Val :=
  callTryGetAt (_ensureInternalTryGetAt self) index

/-- The resolved seek flag of a handle. -/
def canSeekR (self : Enumerable) : Bool :=
  (_ensureInternalTryGetAt self)._canSeek

/-- Public `elementAt(index)`: `Index out of range` when the internal
indexer finds no value. -/
def Enumerable.elementAt (self : Enumerable) (index : Int) : Except Err Val :=
  match tryGetAtR self index with
  | none => .error .indexOutOfRange
  | some v => .ok v

/-- Public `elementAtOrDefault(index)`: `undefined` when the internal
indexer finds no value. -/
def Enumerable.elementAtOrDefault (self : Enumerable) (index : Int) : Val :=
  match tryGetAtR self index with
  | none => .undef
  | some v => v

/-- The strict `length` property: resolve seekability, throw
`UnsupportedEagerAccess` when the handle cannot seek, otherwise `count()`. -/
def Enumerable.length (self : Enumerable) : Except Err Int :=
  let self1 := _ensureInternalTryGetAt self
  if self1._canSeek then .ok (Enumerable.count self1)
  else .error .unsupportedEagerAccess

/-- Well-formed handle: the resolved count equals the length of one
iteration session, and the resolved indexer returns, at every non-negative
position, exactly the element the iteration produces there (the data-model
invariants of the spec; every publicly constructed handle satisfies it, see
the `agrees_*` lemmas). -/
def Agrees (h : Enumerable) : Prop :=
  Enumerable.count h = ((iterate h).length : Int) ∧
  ∀ i : Int, 0 ≤ i → tryGetAtR h i = (iterate h).get? i.toNat

/-- `Enumerable.from`: return an `Enumerable` argument unchanged, wrap
anything else. -/
def Enumerable.from' (iterable : Src) : Enumerable :=
  match iterable with
  | .handle h => h
  | s => mkEnumerable s

/-- Any JS value handed to the constructor: an actual source (iterable or
generator function), `null`/`undefined`, or any other non-iterable value
(a number, a plain object, an ordinary function). -/
inductive SrcVal where
  | src : Src → SrcVal
  | nullish : SrcVal
  | other : SrcVal

/-- Does the value expose `Symbol.iterator`? (arrays, strings and
`Enumerable` instances do; a generator function does not). -/
def hasSymbolIterator : Src → Bool
  | .arr _ => true
  | .str _ => true
  | .genFn _ => false
  | .handle _ => true

/-- Is the value a function whose constructor is `GeneratorFunction`? -/
def isGeneratorFunction : Src → Bool
  | .genFn _ => true
  | _ => false

/-- JS truthiness of a source value: among the representable sources only
the empty string is falsy (arrays, functions and `Enumerable` objects are
always truthy, even when empty). -/
def isTruthy : Src → Bool
  | .str s => decide (s ≠ "")
  | _ => true

/-- `_ensureIterable`: the outer guard `if (src)` first requires a truthy
value — so the empty string is rejected even though it is iterable — then
a value exposing `Symbol.iterator` or a generator function is accepted;
every other value throws `the argument must be iterable!`. -/
def _ensureIterable (v : SrcVal) : Except Err Unit :=
  match v with
  | .src s =>
    if isTruthy s then
      if hasSymbolIterator s || isGeneratorFunction s then .ok ()
      else .error .invalidSource
    else .error .invalidSource
  | .nullish => .error .invalidSource
  | .other => .error .invalidSource

/-- The constructor on an arbitrary JS value: run `_ensureIterable`, then
build the handle (the final branch is unreachable because `_ensureIterable`
already rejected non-source values). -/
def constructE (v : SrcVal) : Except Err Enumerable :=
  match _ensureIterable v with
  | .error e => .error e
  | .ok _ =>
    match v with
    | .src s => .ok (mkEnumerable s)
    | _ => .error .invalidSource

/-- The generator of `concat`: yield the items of `self`, then the items of
`Enumerable.from(iterable)`. The loop body of `take`'s generator: yield
while `nrLeft > 0`, then break. -/
def takeGen : List Val → Int → List Val
  | [], _ => []
  | item :: rest, nrLeft =>
    if 0 < nrLeft then item :: takeGen rest (nrLeft - 1) else []

/-- The loop body of `skip`'s generator: decrement `nrLeft` without yielding
while positive, then yield every remaining item. -/
def skipGen : List Val → Int → List Val
  | [], _ => []
  | item :: rest, nrLeft =>
    if 0 < nrLeft then skipGen rest (nrLeft - 1) else item :: skipGen rest nrLeft

/-- The generator of `select`: apply the selector to each item together with
its position. -/
def selectGen (selector : Val → Option Int → Val) : List Val → Int → List Val
  | [], _ => []
  | item :: rest, index => selector item (some index) :: selectGen selector rest (index + 1)

/-- `concat(iterable)`: generator = this then `from(iterable)`; count = sum
of both counts; seekable iff both are; when `this` can seek the indexer
tries the first operand, then the second at `index − this.count()`.
(The `_ensureIterable(iterable)` check passes for every truthy `Src`; the
code throws on the falsy empty-string argument, which this total embedding
does not model — the theorems below pass only array and nested-handle
arguments, which are always truthy.) -/
def Enumerable.concat (self : Enumerable) (iterable : Src) : Enumerable :=
  let result := mkEnumerable (.genFn (iterate self ++ iterate (Enumerable.from' iterable)))
  let other := Enumerable.from' iterable
  let self1 := _ensureInternalTryGetAt self
  let other1 := _ensureInternalTryGetAt other
  match result with
  | .mk rsrc ruq _ _ _ rwi =>
    .mk rsrc ruq (self1._canSeek && other1._canSeek)
      (some (fun _ => Enumerable.count self + Enumerable.count other))
      (if self1._canSeek then
        some (fun index =>
          (callTryGetAt self1 index).or
            (callTryGetAt other1 (index - Enumerable.count self)))
       else none)
      rwi

/-- `take(nr)`: count = `min(nr, this.count())`; seek flag copied from the
parent; when the parent can seek, the indexer returns `null` for
`index >= nr` and delegates below. -/
def Enumerable.take (self : Enumerable) (nr : Int) : Enumerable :=
  let result := mkEnumerable (.genFn (takeGen (iterate self) nr))
  let self1 := _ensureInternalTryGetAt self
  match result with
  | .mk rsrc ruq _ _ _ rwi =>
    .mk rsrc ruq self1._canSeek
      (some (fun _ => min nr (Enumerable.count self)))
      (if self1._canSeek then
        some (fun index => if nr ≤ index then none else callTryGetAt self1 index)
       else none)
      rwi

/-- `skip(nr)`: count = `max(0, this.count() − nr)`; seek flag copied from
the parent; the indexer (installed unconditionally) is the parent's shifted
by `nr`. -/
def Enumerable.skip (self : Enumerable) (nr : Int) : Enumerable :=
  let result := mkEnumerable (.genFn (skipGen (iterate self) nr))
  let self1 := _ensureInternalTryGetAt self
  match result with
  | .mk rsrc ruq _ _ _ rwi =>
    .mk rsrc ruq self1._canSeek
      (some (fun _ => max 0 (Enumerable.count self - nr)))
      (some (fun index => callTryGetAt self1 (index + nr)))
      rwi

/-- `splice(start, howmany, ...newItems)`:
`this.take(start).concat(newItems).concat(this.skip(start + howmany))`. -/
def Enumerable.splice (self : Enumerable) (start howmany : Int)
    (newItems : List Val) : Enumerable :=
  ((self.take start).concat (.arr newItems)).concat
    (.handle (self.skip (start + howmany)))

/-- `select(selector)`: generator maps the selector with the item AND its
position; count copied from the parent's resolved count; seek flag copied;
the indexer applies the selector to the parent's element with the VALUE
ONLY (the one-argument call `selector(res.value)`, modelled by passing
`none` for the missing index argument). -/
def Enumerable.select (self : Enumerable)
    (selector : Val → Option Int → Val) : Enumerable :=
  let result := mkEnumerable (.genFn (selectGen selector (iterate self) 0))
  let self0 := _ensureInternalCount self
  let self1 := _ensureInternalTryGetAt self0
  match result with
  | .mk rsrc ruq _ _ _ rwi =>
    .mk rsrc ruq self1._canSeek
      self0._count
      (some (fun index =>
        match callTryGetAt self1 index with
        | none => none
        | some v => some (selector v none)))
      rwi

/-- `toArray()`: when the handle can seek, allocate `new Array(count)` (a
negative count raises `RangeError` in JS) and fill it by indexing (a missing
value, `?.value`, becomes `undefined`); otherwise materialize one iteration
session. -/
def Enumerable.toArray (self : Enumerable) : Except Err (List Val) :=
  let self1 := _ensureInternalTryGetAt self
  if self1._canSeek then
    let n := Enumerable.count self1
    if n < 0 then .error .rangeError
    else
      .ok ((List.range n.toNat).map (fun i : Nat =>
        match callTryGetAt self1 (i : Int) with
        | some v => v
        | none => .undef))
  else .ok (iterate self1)

/-- `typeof v === 'undefined'`. -/
def isUndef : Val → Bool
  | .undef => true
  | _ => false

/-- `typeof v === 'number'` (NaN is a number in JS). -/
def isNumberType : Val → Bool
  | .num _ => true
  | .nan => true
  | _ => false

/-- `_toNumber`: pass numbers through, everything else becomes NaN (no
string parsing, unlike `Number(obj)`). -/
def _toNumber (obj : Val) : Val :=
  if isNumberType obj then obj else .nan

/-- JS `+` on the values `_toNumber` can produce: integer addition on
numbers, NaN as soon as NaN is involved. -/
def jsAdd : Val → Val → Val
  | .num a, .num b => .num (a + b)
  | _, _ => .nan

/-- JS abstract `<` restricted to our value universe: lexicographic between
two strings, numeric otherwise (strings coerce, the empty string to 0,
non-numeric strings to NaN), any NaN/undefined operand makes it false. -/
def jsLt (a b : Val) : Bool :=
  match a, b with
  | .str x, .str y => decide (x < y)
  | _, _ =>
    match numericValue a, numericValue b with
    | some m, some n => decide (m < n)
    | _, _ => false
where
  strHead (s : String) : Option Int := if s = "" then some 0 else s.toInt?
  numericValue : Val → Option Int
    | .num n => some n
    | .nan => none
    | .undef => none
    | .str s => strHead s

/-- `_defaultComparer`: 1 when `item1 > item2`, −1 when `item1 < item2`,
else 0. -/
def _defaultComparer (item1 item2 : Val) : Int :=
  if jsLt item2 item1 then 1
  else if jsLt item1 item2 then -1
  else 0

/-- The aggregate record returned by `stats()`. -/
structure StatsResult where
  count : Int
  min : Val
  max : Val
  deriving DecidableEq, Repr

/-- The loop of `stats()`: a new minimum when the current one is still
`undefined` or compares greater than the item, symmetrically for the
maximum, then increment the count. The items are NOT coerced to numbers. -/
def statsLoop (comparer : Val → Val → Int) : List Val → StatsResult → StatsResult
  | [], agg => agg
  | item :: rest, agg =>
    let newMin := if isUndef agg.min || comparer item agg.min < 0 then item else agg.min
    let newMax := if isUndef agg.max || comparer item agg.max > 0 then item else agg.max
    statsLoop comparer rest ⟨agg.count + 1, newMin, newMax⟩

/-- `stats(comparer?)`: fold the iteration from
`{count: 0, min: undefined, max: undefined}` (a provided comparer passes
`_ensureFunction`; otherwise `_defaultComparer` is used). -/
def Enumerable.stats (self : Enumerable)
    (comparer : Option (Val → Val → Int)) : StatsResult :=
  let cmp := match comparer with
    | some c => c
    | none => _defaultComparer
  statsLoop cmp (iterate self) ⟨0, .undef, .undef⟩

/-- `min(comparer?)`: `undefined` on an empty sequence, else `stats().min`. -/
def Enumerable.min (self : Enumerable) (comparer : Option (Val → Val → Int)) : Val :=
  let stats := self.stats comparer
  if stats.count = 0 then .undef else stats.min

/-- `max(comparer?)`: `undefined` on an empty sequence, else `stats().max`. -/
def Enumerable.max (self : Enumerable) (comparer : Option (Val → Val → Int)) : Val :=
  let stats := self.stats comparer
  if stats.count = 0 then .undef else stats.max

/-- The aggregate record returned by `sumAndCount()`. -/
structure SumCountResult where
  sum : Val
  count : Int
  deriving DecidableEq, Repr

/-- The loop of `sumAndCount()`: the first item replaces the initial sum
(`_toNumber(item)`), later items are added via `_toNumber`. -/
def sumLoop : List Val → SumCountResult → SumCountResult
  | [], agg => agg
  | item :: rest, agg =>
    let newSum := if agg.count = 0 then _toNumber item else jsAdd agg.sum (_toNumber item)
    sumLoop rest ⟨newSum, agg.count + 1⟩

/-- `sumAndCount()`: fold the iteration from `{sum: 0, count: 0}`. -/
def Enumerable.sumAndCount (self : Enumerable) : SumCountResult :=
  sumLoop (iterate self) ⟨.num 0, 0⟩

/-- `sum()`: `undefined` on an empty sequence, else `sumAndCount().sum`. -/
def Enumerable.sum (self : Enumerable) : Val :=
  let stats := self.sumAndCount
  if stats.count = 0 then .undef else stats.sum

/-- Reference model following the spec's words: the ECMAScript
`Array.prototype.splice(start, deleteCount, ...items)` applied to a copy of
the array — the state of the array after removal and insertion (negative
`start` counts from the end; `start` and `deleteCount` are clamped). -/
def spliceNative (arr : List Val) (start deleteCount : Int)
    (items : List Val) : List Val :=
  let len : Int := arr.length
  let actualStart := if start < 0 then Max.max (len + start) 0 else Min.min start len
  let actualDeleteCount := Min.min (Max.max deleteCount 0) (len - actualStart)
  arr.take actualStart.toNat ++ items ++ arr.drop (actualStart + actualDeleteCount).toNat

/-! ### Resolver lemmas: memoization, idempotence, field stability -/

theorem eTGA_isSome (e : Enumerable) :
    ((_ensureInternalTryGetAt e)._tryGetAt).isSome = true := by
  cases e with
  | mk src uq cs cnt tga wi =>
    cases tga with
    | some f => rfl
    | none => cases src <;> rfl

theorem eTGA_of_some (e : Enumerable) (h : (e._tryGetAt).isSome = true) :
    _ensureInternalTryGetAt e = e := by
  cases e with
  | mk src uq cs cnt tga wi =>
    cases tga with
    | some f => rfl
    | none => simp [Enumerable._tryGetAt] at h

theorem eTGA_idem (e : Enumerable) :
    _ensureInternalTryGetAt (_ensureInternalTryGetAt e) = _ensureInternalTryGetAt e :=
  eTGA_of_some _ (eTGA_isSome e)

theorem eCnt_isSome (e : Enumerable) :
    ((_ensureInternalCount e)._count).isSome = true := by
  cases e with
  | mk src uq cs cnt tga wi =>
    cases cnt with
    | some f => rfl
    | none => cases src <;> rfl

theorem eCnt_of_some (e : Enumerable) (h : (e._count).isSome = true) :
    _ensureInternalCount e = e := by
  cases e with
  | mk src uq cs cnt tga wi =>
    cases cnt with
    | some f => rfl
    | none => simp [Enumerable._count] at h

theorem eCnt_idem (e : Enumerable) :
    _ensureInternalCount (_ensureInternalCount e) = _ensureInternalCount e :=
  eCnt_of_some _ (eCnt_isSome e)

theorem eCnt_tryGetAt (e : Enumerable) :
    (_ensureInternalCount e)._tryGetAt = e._tryGetAt := by
  cases e with
  | mk src uq cs cnt tga wi =>
    cases cnt with
    | some f => rfl
    | none => cases src <;> rfl

theorem eCnt_canSeek (e : Enumerable) :
    (_ensureInternalCount e)._canSeek = e._canSeek := by
  cases e with
  | mk src uq cs cnt tga wi =>
    cases cnt with
    | some f => rfl
    | none => cases src <;> rfl

theorem eTGA_count (e : Enumerable) :
    (_ensureInternalTryGetAt e)._count = e._count := by
  cases e with
  | mk src uq cs cnt tga wi =>
    cases tga with
    | some f => rfl
    | none => cases src <;> rfl

theorem iterate_eTGA (e : Enumerable) :
    iterate (_ensureInternalTryGetAt e) = iterate e := by
  cases e with
  | mk src uq cs cnt tga wi =>
    cases tga with
    | some f => rfl
    | none =>
      cases src with
      | arr l => rfl
      | str s => rfl
      | genFn L => rfl
      | handle inner =>
        have ih := iterate_eTGA inner
        simp only [_ensureInternalTryGetAt, iterate]
        exact ih

theorem iterate_eCnt (e : Enumerable) :
    iterate (_ensureInternalCount e) = iterate e := by
  cases e with
  | mk src uq cs cnt tga wi =>
    cases cnt with
    | some f => rfl
    | none =>
      cases src with
      | arr l => rfl
      | str s => rfl
      | genFn L => rfl
      | handle inner =>
        have ih := iterate_eCnt inner
        simp only [_ensureInternalCount, iterate]
        exact ih

theorem count_eTGA (e : Enumerable) :
    Enumerable.count (_ensureInternalTryGetAt e) = Enumerable.count e := by
  cases e with
  | mk src uq cs cnt tga wi =>
    cases tga with
    | some f => rfl
    | none =>
      cases cnt with
      | some g => cases src <;> rfl
      | none =>
        cases src with
        | arr l => rfl
        | str s => rfl
        | genFn L => rfl
        | handle inner =>
          have ih := count_eTGA inner
          show Enumerable.count (.mk (.handle (_ensureInternalTryGetAt inner)) uq
            (_ensureInternalTryGetAt inner)._canSeek none
            (some (fun index => callTryGetAt (_ensureInternalTryGetAt inner) index)) wi) =
            Enumerable.count (.mk (.handle inner) uq cs none none wi)
          show callCount (_ensureInternalCount (_ensureInternalTryGetAt inner)) =
            callCount (_ensureInternalCount inner)
          exact ih

/-! ### List index lemmas (self-contained) -/

theorem lget_none {α : Type} (l : List α) (n : Nat) (h : l.length ≤ n) :
    l.get? n = none := by
  induction l generalizing n with
  | nil => rfl
  | cons x xs ih =>
    cases n with
    | zero => simp at h
    | succ m => exact ih m (by simpa using h)

theorem lget_some {α : Type} (l : List α) (n : Nat) (h : n < l.length) :
    l.get? n = some (l.get ⟨n, h⟩) := by
  induction l generalizing n with
  | nil => simp at h
  | cons x xs ih =>
    cases n with
    | zero => rfl
    | succ m => exact ih m (by simpa using h)

theorem lget_append {α : Type} (l₁ l₂ : List α) (n : Nat) :
    (l₁ ++ l₂).get? n = if n < l₁.length then l₁.get? n else l₂.get? (n - l₁.length) := by
  induction l₁ generalizing n with
  | nil => simp
  | cons x xs ih =>
    cases n with
    | zero => simp
    | succ m =>
      show (xs ++ l₂).get? m = _
      rw [ih]
      by_cases h : m < xs.length
      · rw [if_pos h, if_pos (by simpa using Nat.succ_lt_succ h)]
        rfl
      · rw [if_neg h, if_neg (by simp; omega)]
        congr 1
        simp only [List.length_cons]
        omega

theorem lget_take {α : Type} (l : List α) (k n : Nat) :
    (l.take k).get? n = if n < k then l.get? n else none := by
  induction l generalizing k n with
  | nil => simp
  | cons x xs ih =>
    cases k with
    | zero => simp
    | succ j =>
      cases n with
      | zero => simp
      | succ m =>
        show (xs.take j).get? m = _
        rw [ih]
        by_cases h : m < j
        · rw [if_pos h, if_pos (Nat.succ_lt_succ h)]
          rfl
        · rw [if_neg h, if_neg (by omega)]

theorem lget_drop {α : Type} (l : List α) (k n : Nat) :
    (l.drop k).get? n = l.get? (k + n) := by
  induction l generalizing k n with
  | nil => simp
  | cons x xs ih =>
    cases k with
    | zero => simp
    | succ j =>
      show (xs.drop j).get? n = (x :: xs).get? (j + 1 + n)
      rw [ih]
      have : j + 1 + n = (j + n) + 1 := by omega
      rw [this]
      rfl

theorem lget_map {α β : Type} (f : α → β) (l : List α) (n : Nat) :
    (l.map f).get? n = (l.get? n).map f := by
  induction l generalizing n with
  | nil => rfl
  | cons x xs ih =>
    cases n with
    | zero => rfl
    | succ m => exact ih m

theorem scan_spec (l : List Val) (index x : Int) :
    scanTryGetAt l index x =
      if x ≤ index then l.get? (index - x).toNat else none := by
  induction l generalizing x with
  | nil => simp [scanTryGetAt]
  | cons item rest ih =>
    simp only [scanTryGetAt]
    by_cases h : index = x
    · subst h
      rw [if_pos rfl, if_pos le_rfl]
      simp
    · rw [if_neg h, ih]
      by_cases h2 : x ≤ index
      · rw [if_pos (by omega), if_pos h2]
        have h4 : (index - x).toNat = (index - (x + 1)).toNat + 1 := by omega
        rw [h4]
        rfl
      · rw [if_neg (by omega), if_neg h2]

theorem takeGen_eq (l : List Val) (nr : Int) : takeGen l nr = l.take nr.toNat := by
  induction l generalizing nr with
  | nil => simp [takeGen]
  | cons item rest ih =>
    simp only [takeGen]
    by_cases h : 0 < nr
    · rw [if_pos h, ih]
      have h2 : nr.toNat = (nr - 1).toNat + 1 := by omega
      rw [h2]
      rfl
    · rw [if_neg h]
      have h2 : nr.toNat = 0 := by omega
      rw [h2]
      rfl

theorem skipGen_eq (l : List Val) (nr : Int) : skipGen l nr = l.drop nr.toNat := by
  induction l generalizing nr with
  | nil => simp [skipGen]
  | cons item rest ih =>
    simp only [skipGen]
    by_cases h : 0 < nr
    · rw [if_pos h, ih]
      have h2 : nr.toNat = (nr - 1).toNat + 1 := by omega
      rw [h2]
      rfl
    · rw [if_neg h, ih]
      have h2 : nr.toNat = 0 := by omega
      rw [h2]
      rfl

theorem selectGen_get (f : Val → Option Int → Val) (l : List Val) (k : Int) (n : Nat) :
    (selectGen f l k).get? n = (l.get? n).map (fun v => f v (some (k + n))) := by
  induction l generalizing k n with
  | nil => simp [selectGen]
  | cons item rest ih =>
    cases n with
    | zero => simp [selectGen]
    | succ m =>
      show (selectGen f rest (k + 1)).get? m = _
      rw [ih]
      have h : (k + 1) + (m : Int) = k + ((m : Int) + 1) := by omega
      simp only [h]
      rfl

theorem list_map_range {α : Type} (l : List α) (f : Nat → α)
    (hf : ∀ i (h : i < l.length), f i = l.get ⟨i, h⟩) :
    (List.range l.length).map f = l := by
  induction l generalizing f with
  | nil => rfl
  | cons x xs ih =>
    show (List.range (xs.length + 1)).map f = x :: xs
    rw [List.range_succ_eq_map, List.map_cons, List.map_map]
    rw [hf 0 (by simp)]
    show x :: (List.range xs.length).map (f ∘ Nat.succ) = x :: xs
    rw [ih (f ∘ Nat.succ) (fun i h => hf (i + 1) (by simpa using Nat.succ_lt_succ h))]

/-! ### Well-formed handles: capabilities agree with iteration -/

theorem agrees_arr (l : List Val) : Agrees (mkEnumerable (.arr l)) := by
  constructor
  · rfl
  · intro i hi
    show (if 0 ≤ i ∧ i < (l.length : Int) then l.get? i.toNat else none) = l.get? i.toNat
    by_cases h2 : i < (l.length : Int)
    · rw [if_pos ⟨hi, h2⟩]
    · rw [if_neg (fun hc => h2 hc.2), lget_none l i.toNat (by omega)]

theorem agrees_genFn (l : List Val) : Agrees (mkEnumerable (.genFn l)) := by
  constructor
  · rfl
  · intro i hi
    show scanTryGetAt l i 0 = l.get? i.toNat
    rw [scan_spec, if_pos hi]
    congr 1
    omega

theorem agrees_str (s : String) : Agrees (mkEnumerable (.str s)) := by
  constructor
  · show (s.data.length : Int) = _
    rw [show iterate (mkEnumerable (.str s)) =
      s.data.map (fun c => Val.str (String.singleton c)) from rfl, List.length_map]
  · intro i hi
    show (if i < (s.data.length : Int) then some (.str (charAt s i)) else none) =
      (s.data.map (fun c => Val.str (String.singleton c))).get? i.toNat
    rw [lget_map]
    by_cases h2 : i < (s.data.length : Int)
    · have hlt : i.toNat < s.data.length := by omega
      rw [if_pos h2, lget_some s.data i.toNat hlt]
      show some (Val.str (charAt s i)) = some (Val.str (String.singleton _))
      rw [charAt, dif_pos ⟨hi, hlt⟩]
    · rw [if_neg h2, lget_none s.data i.toNat (by omega)]
      rfl

/-! ### Computation lemmas for the operations -/

theorem iterate_take (h : Enumerable) (n : Int) :
    iterate (h.take n) = takeGen (iterate h) n := rfl

theorem iterate_skip (h : Enumerable) (n : Int) :
    iterate (h.skip n) = skipGen (iterate h) n := rfl

theorem iterate_concat (h : Enumerable) (s : Src) :
    iterate (h.concat s) = iterate h ++ iterate (Enumerable.from' s) := rfl

theorem iterate_select (h : Enumerable) (f : Val → Option Int → Val) :
    iterate (h.select f) = selectGen f (iterate h) 0 := rfl

theorem count_take (h : Enumerable) (n : Int) :
    Enumerable.count (h.take n) = min n (Enumerable.count h) := rfl

theorem count_skip (h : Enumerable) (n : Int) :
    Enumerable.count (h.skip n) = max 0 (Enumerable.count h - n) := rfl

theorem count_concat (h : Enumerable) (s : Src) :
    Enumerable.count (h.concat s) =
      Enumerable.count h + Enumerable.count (Enumerable.from' s) := rfl

theorem tryGetAtR_skip (h : Enumerable) (n i : Int) :
    tryGetAtR (h.skip n) i = tryGetAtR h (i + n) := by
  show callTryGetAt (_ensureInternalTryGetAt (h.skip n)) i = _
  rw [eTGA_of_some (h.skip n) rfl]
  rfl

theorem canSeekR_skip (h : Enumerable) (n : Int) :
    canSeekR (h.skip n) = canSeekR h := by
  show (_ensureInternalTryGetAt (h.skip n))._canSeek = _
  rw [eTGA_of_some (h.skip n) rfl]
  rfl

theorem take_tga_seek (h : Enumerable) (n : Int)
    (hcs : (_ensureInternalTryGetAt h)._canSeek = true) :
    (h.take n)._tryGetAt = some (fun index =>
      if n ≤ index then none else callTryGetAt (_ensureInternalTryGetAt h) index) := by
  have h0 : (h.take n)._tryGetAt =
      if (_ensureInternalTryGetAt h)._canSeek then
        some (fun index =>
          if n ≤ index then none else callTryGetAt (_ensureInternalTryGetAt h) index)
      else none := rfl
  rw [h0, hcs, if_pos rfl]

theorem take_tga_noseek (h : Enumerable) (n : Int)
    (hcs : (_ensureInternalTryGetAt h)._canSeek = false) :
    (h.take n)._tryGetAt = none := by
  have h0 : (h.take n)._tryGetAt =
      if (_ensureInternalTryGetAt h)._canSeek then
        some (fun index =>
          if n ≤ index then none else callTryGetAt (_ensureInternalTryGetAt h) index)
      else none := rfl
  rw [h0, hcs]
  rfl

theorem tryGetAtR_take_seek (h : Enumerable) (n i : Int)
    (hcs : (_ensureInternalTryGetAt h)._canSeek = true) :
    tryGetAtR (h.take n) i = if n ≤ i then none else tryGetAtR h i := by
  show callTryGetAt (_ensureInternalTryGetAt (h.take n)) i = _
  rw [eTGA_of_some (h.take n) (by rw [take_tga_seek h n hcs]; rfl)]
  show (match (h.take n)._tryGetAt with
    | some f => f i
    | none => none) = _
  rw [take_tga_seek h n hcs]
  rfl

theorem tryGetAtR_genFn_none (e : Enumerable) (L : List Val)
    (hsrc : e._src = .genFn L) (htga : e._tryGetAt = none) (i : Int) :
    tryGetAtR e i = scanTryGetAt L i 0 := by
  cases e with
  | mk src uq cs cnt tga wi =>
    simp only [Enumerable._src] at hsrc
    simp only [Enumerable._tryGetAt] at htga
    subst hsrc
    subst htga
    rfl

theorem canSeekR_genFn_none (e : Enumerable) (L : List Val)
    (hsrc : e._src = .genFn L) (htga : e._tryGetAt = none) :
    canSeekR e = false := by
  cases e with
  | mk src uq cs cnt tga wi =>
    simp only [Enumerable._src] at hsrc
    simp only [Enumerable._tryGetAt] at htga
    subst hsrc
    subst htga
    rfl

theorem tryGetAtR_take_noseek (h : Enumerable) (n i : Int)
    (hcs : (_ensureInternalTryGetAt h)._canSeek = false) :
    tryGetAtR (h.take n) i = scanTryGetAt (takeGen (iterate h) n) i 0 :=
  tryGetAtR_genFn_none (h.take n) _ rfl (take_tga_noseek h n hcs) i

theorem canSeekR_take (h : Enumerable) (n : Int) :
    canSeekR (h.take n) = canSeekR h := by
  cases hcs : (_ensureInternalTryGetAt h)._canSeek with
  | true =>
    show (_ensureInternalTryGetAt (h.take n))._canSeek = _
    rw [eTGA_of_some (h.take n) (by rw [take_tga_seek h n hcs]; rfl)]
    rfl
  | false =>
    rw [canSeekR_genFn_none (h.take n) _ rfl (take_tga_noseek h n hcs)]
    show false = (_ensureInternalTryGetAt h)._canSeek
    rw [hcs]

theorem concat_tga_seek (h : Enumerable) (s : Src)
    (hcs : (_ensureInternalTryGetAt h)._canSeek = true) :
    (h.concat s)._tryGetAt = some (fun index =>
      (callTryGetAt (_ensureInternalTryGetAt h) index).or
        (callTryGetAt (_ensureInternalTryGetAt (Enumerable.from' s))
          (index - Enumerable.count h))) := by
  have h0 : (h.concat s)._tryGetAt =
      if (_ensureInternalTryGetAt h)._canSeek then
        some (fun index =>
          (callTryGetAt (_ensureInternalTryGetAt h) index).or
            (callTryGetAt (_ensureInternalTryGetAt (Enumerable.from' s))
              (index - Enumerable.count h)))
      else none := rfl
  rw [h0, hcs, if_pos rfl]

theorem concat_tga_noseek (h : Enumerable) (s : Src)
    (hcs : (_ensureInternalTryGetAt h)._canSeek = false) :
    (h.concat s)._tryGetAt = none := by
  have h0 : (h.concat s)._tryGetAt =
      if (_ensureInternalTryGetAt h)._canSeek then
        some (fun index =>
          (callTryGetAt (_ensureInternalTryGetAt h) index).or
            (callTryGetAt (_ensureInternalTryGetAt (Enumerable.from' s))
              (index - Enumerable.count h)))
      else none := rfl
  rw [h0, hcs]
  rfl

theorem tryGetAtR_concat_seek (h : Enumerable) (s : Src) (i : Int)
    (hcs : (_ensureInternalTryGetAt h)._canSeek = true) :
    tryGetAtR (h.concat s) i =
      (tryGetAtR h i).or (tryGetAtR (Enumerable.from' s) (i - Enumerable.count h)) := by
  show callTryGetAt (_ensureInternalTryGetAt (h.concat s)) i = _
  rw [eTGA_of_some (h.concat s) (by rw [concat_tga_seek h s hcs]; rfl)]
  show (match (h.concat s)._tryGetAt with
    | some f => f i
    | none => none) = _
  rw [concat_tga_seek h s hcs]
  rfl

theorem tryGetAtR_concat_noseek (h : Enumerable) (s : Src) (i : Int)
    (hcs : (_ensureInternalTryGetAt h)._canSeek = false) :
    tryGetAtR (h.concat s) i =
      scanTryGetAt (iterate h ++ iterate (Enumerable.from' s)) i 0 :=
  tryGetAtR_genFn_none (h.concat s) _ rfl (concat_tga_noseek h s hcs) i

theorem canSeekR_concat (h : Enumerable) (s : Src) :
    canSeekR (h.concat s) = (canSeekR h && canSeekR (Enumerable.from' s)) := by
  cases hcs : (_ensureInternalTryGetAt h)._canSeek with
  | true =>
    show (_ensureInternalTryGetAt (h.concat s))._canSeek = _
    rw [eTGA_of_some (h.concat s) (by rw [concat_tga_seek h s hcs]; rfl)]
    rfl
  | false =>
    rw [canSeekR_genFn_none (h.concat s) _ rfl (concat_tga_noseek h s hcs)]
    show false = ((_ensureInternalTryGetAt h)._canSeek && canSeekR (Enumerable.from' s))
    rw [hcs]
    rfl

theorem callTGA_eTGA_eCnt (e : Enumerable) (i : Int) :
    callTryGetAt (_ensureInternalTryGetAt (_ensureInternalCount e)) i = tryGetAtR e i := by
  cases e with
  | mk src uq cs cnt tga wi =>
    cases cnt with
    | some f => rfl
    | none =>
      cases tga with
      | some f => cases src <;> rfl
      | none =>
        cases src with
        | arr l => rfl
        | str s => rfl
        | genFn L => rfl
        | handle inner => exact callTGA_eTGA_eCnt inner i

theorem canSeek_eTGA_eCnt (e : Enumerable) :
    (_ensureInternalTryGetAt (_ensureInternalCount e))._canSeek = canSeekR e := by
  cases e with
  | mk src uq cs cnt tga wi =>
    cases cnt with
    | some f => rfl
    | none =>
      cases tga with
      | some f => cases src <;> rfl
      | none =>
        cases src with
        | arr l => rfl
        | str s => rfl
        | genFn L => rfl
        | handle inner => exact canSeek_eTGA_eCnt inner

theorem tryGetAtR_select (h : Enumerable) (f : Val → Option Int → Val) (i : Int) :
    tryGetAtR (h.select f) i =
      match tryGetAtR h i with
      | none => none
      | some v => some (f v none) := by
  show callTryGetAt (_ensureInternalTryGetAt (h.select f)) i = _
  rw [eTGA_of_some (h.select f) rfl]
  show (match callTryGetAt
      (_ensureInternalTryGetAt (_ensureInternalCount h)) i with
    | none => none
    | some v => some (f v none)) = _
  rw [callTGA_eTGA_eCnt h i]

theorem canSeekR_select (h : Enumerable) (f : Val → Option Int → Val) :
    canSeekR (h.select f) = canSeekR h := by
  show (_ensureInternalTryGetAt (h.select f))._canSeek = _
  rw [eTGA_of_some (h.select f) rfl]
  exact canSeek_eTGA_eCnt h

/-! ### `Agrees` is preserved by the operations -/

theorem agrees_take (h : Enumerable) (n : Int) (ha : Agrees h) (hn : 0 ≤ n) :
    Agrees (h.take n) := by
  obtain ⟨hc, hg⟩ := ha
  constructor
  · rw [count_take, iterate_take, hc, takeGen_eq, List.length_take]
    omega
  · intro i hi
    cases hcs : (_ensureInternalTryGetAt h)._canSeek with
    | true =>
      rw [iterate_take, takeGen_eq, lget_take, tryGetAtR_take_seek h n i hcs]
      by_cases hin : n ≤ i
      · rw [if_pos hin, if_neg (by omega)]
      · rw [if_neg hin, if_pos (by omega), hg i hi]
    | false =>
      rw [tryGetAtR_take_noseek h n i hcs, scan_spec, if_pos hi, sub_zero]
      rfl

theorem agrees_skip (h : Enumerable) (n : Int) (ha : Agrees h) (hn : 0 ≤ n) :
    Agrees (h.skip n) := by
  obtain ⟨hc, hg⟩ := ha
  constructor
  · rw [count_skip, iterate_skip, hc, skipGen_eq, List.length_drop]
    omega
  · intro i hi
    rw [tryGetAtR_skip, iterate_skip, skipGen_eq, lget_drop, hg (i + n) (by omega)]
    congr 1
    omega

theorem agrees_concat (a : Enumerable) (s : Src) (ha : Agrees a)
    (hb : Agrees (Enumerable.from' s)) : Agrees (a.concat s) := by
  obtain ⟨hac, hag⟩ := ha
  obtain ⟨hbc, hbg⟩ := hb
  constructor
  · rw [count_concat, iterate_concat, List.length_append, hac, hbc]
    push_cast
    ring
  · intro i hi
    cases hcs : (_ensureInternalTryGetAt a)._canSeek with
    | true =>
      rw [tryGetAtR_concat_seek a s i hcs, iterate_concat, lget_append]
      by_cases hlt : i.toNat < (iterate a).length
      · rw [if_pos hlt, hag i hi, lget_some (iterate a) i.toNat hlt]
        rfl
      · have h1 : tryGetAtR a i = none := by
          rw [hag i hi, lget_none (iterate a) i.toNat (by omega)]
        rw [if_neg hlt, h1]
        show tryGetAtR (Enumerable.from' s) (i - Enumerable.count a) = _
        rw [hbg (i - Enumerable.count a) (by rw [hac]; omega)]
        congr 1
        rw [hac]
        omega
    | false =>
      rw [tryGetAtR_concat_noseek a s i hcs, scan_spec, if_pos hi, iterate_concat]
      congr 1
      omega

theorem toArray_agrees (h : Enumerable) (ha : Agrees h) :
    Enumerable.toArray h = .ok (iterate h) := by
  obtain ⟨hc, hg⟩ := ha
  simp only [Enumerable.toArray]
  cases hcs : (_ensureInternalTryGetAt h)._canSeek with
  | false =>
    rw [if_neg (by simp : ¬(false = true)), iterate_eTGA]
  | true =>
    rw [if_pos rfl, count_eTGA, hc,
      if_neg (by exact not_lt.mpr (Int.natCast_nonneg _)), Int.toNat_natCast]
    refine congrArg Except.ok (list_map_range (iterate h) _ (fun i hlt => ?_))
    show (match tryGetAtR h (i : Int) with
      | some v => v
      | none => Val.undef) = _
    rw [hg (i : Int) (Int.natCast_nonneg i), Int.toNat_natCast,
      lget_some (iterate h) i hlt]

/-! ### The composed splice equals native splice for non-negative arguments -/

theorem ltake_min {α : Type} (l : List α) (n : Nat) :
    l.take n = l.take (min n l.length) := by
  induction l generalizing n with
  | nil => simp
  | cons x xs ih =>
    cases n with
    | zero => simp
    | succ m =>
      show x :: xs.take m = _
      rw [List.length_cons, Nat.succ_min_succ]
      show x :: xs.take m = x :: xs.take (min m xs.length)
      rw [ih]

theorem ldrop_min {α : Type} (l : List α) (n : Nat) :
    l.drop n = l.drop (min n l.length) := by
  induction l generalizing n with
  | nil => simp
  | cons x xs ih =>
    cases n with
    | zero => simp
    | succ m =>
      show xs.drop m = _
      rw [List.length_cons, Nat.succ_min_succ]
      show xs.drop m = xs.drop (min m xs.length)
      rw [ih]

theorem splice_list (l items : List Val) (s h : Int) (hs : 0 ≤ s) (hh : 0 ≤ h) :
    (l.take s.toNat ++ items) ++ l.drop (s + h).toNat = spliceNative l s h items := by
  simp only [spliceNative]
  rw [if_neg (by omega : ¬ s < 0)]
  have htake : l.take s.toNat = l.take (Min.min s (l.length : Int)).toNat := by
    rw [ltake_min l s.toNat, ltake_min l (Min.min s (l.length : Int)).toNat]
    congr 1
    omega
  have hdrop : l.drop (s + h).toNat =
      l.drop (Min.min s (l.length : Int) +
        Min.min (Max.max h 0) ((l.length : Int) - Min.min s (l.length : Int))).toNat := by
    rw [ldrop_min l (s + h).toNat,
      ldrop_min l (Min.min s (l.length : Int) +
        Min.min (Max.max h 0) ((l.length : Int) - Min.min s (l.length : Int))).toNat]
    congr 1
    omega
  rw [← htake, ← hdrop, List.append_assoc]

/-! ### NaN propagation through `sumAndCount` -/

theorem sumLoop_nan (l : List Val) (c : Int) (hc : 0 < c) :
    (sumLoop l ⟨.nan, c⟩).sum = .nan := by
  induction l generalizing c with
  | nil => rfl
  | cons x xs ih =>
    show (sumLoop xs ⟨if c = 0 then _toNumber x else jsAdd .nan (_toNumber x), c + 1⟩).sum = _
    rw [if_neg (by omega)]
    show (sumLoop xs ⟨.nan, c + 1⟩).sum = _
    exact ih (c + 1) (by omega)

theorem jsAdd_nan_right (v : Val) : jsAdd v .nan = .nan := by
  cases v <;> rfl

theorem sumLoop_mem_nan (l : List Val) :
    ∀ agg : SumCountResult, 0 ≤ agg.count →
      (∃ v, v ∈ l ∧ isNumberType v = false) → (sumLoop l agg).sum = .nan := by
  induction l with
  | nil =>
    rintro agg _ ⟨v, hv, _⟩
    cases hv
  | cons x xs ih =>
    rintro agg hc ⟨v, hv, hnum⟩
    rcases List.mem_cons.mp hv with h1 | h2
    · subst h1
      have ht : _toNumber v = .nan := by
        unfold _toNumber
        rw [hnum]
        rfl
      show (sumLoop xs ⟨if agg.count = 0 then _toNumber v else jsAdd agg.sum (_toNumber v),
        agg.count + 1⟩).sum = _
      by_cases h0 : agg.count = 0
      · rw [if_pos h0, ht]
        exact sumLoop_nan xs (agg.count + 1) (by omega)
      · rw [if_neg h0, ht, jsAdd_nan_right]
        exact sumLoop_nan xs (agg.count + 1) (by omega)
    · show (sumLoop xs ⟨if agg.count = 0 then _toNumber x else jsAdd agg.sum (_toNumber x),
        agg.count + 1⟩).sum = Val.nan
      refine ih _ ?_ ⟨v, h2, hnum⟩
      show (0 : Int) ≤ agg.count + 1
      omega

/-! ### The claims -/

/-- C1: capability resolution is idempotent and memoized. Running either
resolver twice equals running it once; after a resolver runs, its field is
resolved; a resolver run on an already-resolved handle returns the handle
unchanged (in particular it does not re-inspect the source); and neither
resolver disturbs the fields owned by the other, so the resolved seek flag,
count function and positional-lookup function never change afterwards. -/
theorem claim1_resolution_memoized (e : Enumerable) :
    _ensureInternalTryGetAt (_ensureInternalTryGetAt e) = _ensureInternalTryGetAt e ∧
    _ensureInternalCount (_ensureInternalCount e) = _ensureInternalCount e ∧
    ((_ensureInternalTryGetAt e)._tryGetAt).isSome = true ∧
    ((_ensureInternalCount e)._count).isSome = true ∧
    ((e._tryGetAt).isSome = true → _ensureInternalTryGetAt e = e) ∧
    ((e._count).isSome = true → _ensureInternalCount e = e) ∧
    (_ensureInternalCount e)._tryGetAt = e._tryGetAt ∧
    (_ensureInternalCount e)._canSeek = e._canSeek ∧
    (_ensureInternalTryGetAt e)._count = e._count :=
  ⟨eTGA_idem e, eCnt_idem e, eTGA_isSome e, eCnt_isSome e, eTGA_of_some e,
    eCnt_of_some e, eCnt_tryGetAt e, eCnt_canSeek e, eTGA_count e⟩

/-- C1 witness: the conclusions at concrete handles; the already-resolved
handle is returned unchanged by both resolvers. -/
theorem claim1_witness :
    _ensureInternalTryGetAt (_ensureInternalTryGetAt (mkEnumerable (.arr [Val.num 1]))) =
      _ensureInternalTryGetAt (mkEnumerable (.arr [Val.num 1])) ∧
    _ensureInternalTryGetAt
        (.mk (.arr []) true true (some fun _ => 0) (some fun _ => none) false) =
      .mk (.arr []) true true (some fun _ => 0) (some fun _ => none) false ∧
    _ensureInternalCount
        (.mk (.arr []) true true (some fun _ => 0) (some fun _ => none) false) =
      .mk (.arr []) true true (some fun _ => 0) (some fun _ => none) false :=
  ⟨(claim1_resolution_memoized (mkEnumerable (.arr [Val.num 1]))).1,
    (claim1_resolution_memoized
      (.mk (.arr []) true true (some fun _ => 0) (some fun _ => none) false)).2.2.2.2.1 rfl,
    (claim1_resolution_memoized
      (.mk (.arr []) true true (some fun _ => 0) (some fun _ => none) false)).2.2.2.2.2.1 rfl⟩

/-- C2: evaluation of the code at the failing inputs. For a `skip`-derived
handle the internal lookup at the negative index −1 returns the parent's
element 1 (not the no-value sentinel), so `elementAtOrDefault(-1)` returns 1
instead of the absent marker and `elementAt(-1)` succeeds instead of
throwing IndexOutOfRange; for a string-backed handle the unguarded
`index < length` test makes the lookup at −1 return `charAt(-1) = ""`. -/
theorem claim2_code_eval :
    tryGetAtR ((Enumerable.from' (.arr [Val.num 1, Val.num 2, Val.num 3])).skip 1) (-1) =
      some (Val.num 1) ∧
    ((Enumerable.from' (.arr [Val.num 1, Val.num 2, Val.num 3])).skip 1).elementAtOrDefault (-1) =
      Val.num 1 ∧
    ((Enumerable.from' (.arr [Val.num 1, Val.num 2, Val.num 3])).skip 1).elementAt (-1) =
      .ok (Val.num 1) ∧
    tryGetAtR (Enumerable.from' (.str "abc")) (-1) = some (Val.str "") ∧
    (Enumerable.from' (.str "abc")).elementAtOrDefault (-1) = Val.str "" ∧
    Val.num 1 ≠ Val.undef ∧ Val.str "" ≠ Val.undef := by
  decide

/-- C3 counterexample: `splice` does not match native splice for a negative
`start` (no from-the-end indexing: the code deletes at the front where
native splice deletes at the end) nor for a negative `howmany` (the code
re-yields a prefix where native splice clamps the delete count to 0). -/
theorem claim3_counterexample :
    ((Enumerable.from' (.arr [Val.num 1, Val.num 2, Val.num 3])).splice (-1) 1 []).toArray ≠
      Except.ok (spliceNative [Val.num 1, Val.num 2, Val.num 3] (-1) 1 []) ∧
    ((Enumerable.from' (.arr [Val.num 1, Val.num 2, Val.num 3])).splice 1 (-1)
        [Val.num 9]).toArray ≠
      Except.ok (spliceNative [Val.num 1, Val.num 2, Val.num 3] 1 (-1) [Val.num 9]) := by
  decide

/-- C3 (amended): for every well-formed Handle and all `start ≥ 0` and
`howmany ≥ 0` — including `start` beyond the length and `howmany` exceeding
the remaining length — `splice(start, howmany, ...items).toArray()` equals
the native-splice result on the materialized sequence. -/
theorem claim3_amended_splice (H : Enumerable) (s h : Int) (items : List Val)
    (ha : Agrees H) (hs : 0 ≤ s) (hh : 0 ≤ h) :
    (H.splice s h items).toArray = .ok (spliceNative (iterate H) s h items) := by
  have hsplice : Agrees (H.splice s h items) :=
    agrees_concat _ _ (agrees_concat _ _ (agrees_take H s ha hs) (agrees_arr items))
      (agrees_skip H (s + h) ha (by omega))
  rw [toArray_agrees _ hsplice,
    show iterate (H.splice s h items) =
      (takeGen (iterate H) s ++ items) ++ skipGen (iterate H) (s + h) from rfl,
    takeGen_eq, skipGen_eq, splice_list (iterate H) items s h hs hh]

/-- C3 witness: the amended equation at a concrete handle and arguments. -/
theorem claim3_witness :
    ((Enumerable.from' (.arr [Val.num 1, Val.num 2, Val.num 3])).splice 1 1
        [Val.num 7]).toArray =
      .ok (spliceNative [Val.num 1, Val.num 2, Val.num 3] 1 1 [Val.num 7]) :=
  claim3_amended_splice (Enumerable.from' (.arr [Val.num 1, Val.num 2, Val.num 3]))
    1 1 [Val.num 7] (agrees_arr _) (by decide) (by decide)

/-- C4: for well-formed Handles `A` and `B`, `concat(A, B).count()` equals
`A.count() + B.count()`; whenever `B` is non-empty,
`concat(A, B).elementAt(A.count())` equals `B.elementAt(0)`; and the
concatenation is seekable exactly when both operands are seekable. -/
theorem claim4_concat (A B : Enumerable) (ha : Agrees A) (hb : Agrees B) :
    Enumerable.count (A.concat (.handle B)) =
      Enumerable.count A + Enumerable.count B ∧
    (0 < Enumerable.count B →
      (A.concat (.handle B)).elementAt (Enumerable.count A) = B.elementAt 0) ∧
    canSeekR (A.concat (.handle B)) = (canSeekR A && canSeekR B) := by
  obtain ⟨hac, hag⟩ := ha
  obtain ⟨hbc, hbg⟩ := hb
  refine ⟨count_concat A (.handle B), ?_, canSeekR_concat A (.handle B)⟩
  intro hB
  obtain ⟨hc1, hg1⟩ := agrees_concat A (.handle B) ⟨hac, hag⟩ ⟨hbc, hbg⟩
  simp only [Enumerable.elementAt]
  rw [hg1 (Enumerable.count A) (by rw [hac]; exact Int.natCast_nonneg _),
    hbg 0 le_rfl,
    show iterate (A.concat (.handle B)) = iterate A ++ iterate B from rfl,
    lget_append,
    show (Enumerable.count A).toNat = (iterate A).length by
      rw [hac]; exact Int.toNat_natCast _,
    if_neg (lt_irrefl _), Nat.sub_self]
  rfl

/-- C4 witness: the three conclusions at concrete one-element operands. -/
theorem claim4_witness :
    Enumerable.count ((Enumerable.from' (.arr [Val.num 1])).concat
        (.handle (Enumerable.from' (.arr [Val.num 2])))) =
      Enumerable.count (Enumerable.from' (.arr [Val.num 1])) +
        Enumerable.count (Enumerable.from' (.arr [Val.num 2])) ∧
    ((Enumerable.from' (.arr [Val.num 1])).concat
        (.handle (Enumerable.from' (.arr [Val.num 2])))).elementAt
        (Enumerable.count (Enumerable.from' (.arr [Val.num 1]))) =
      (Enumerable.from' (.arr [Val.num 2])).elementAt 0 ∧
    canSeekR ((Enumerable.from' (.arr [Val.num 1])).concat
        (.handle (Enumerable.from' (.arr [Val.num 2])))) =
      (canSeekR (Enumerable.from' (.arr [Val.num 1])) &&
        canSeekR (Enumerable.from' (.arr [Val.num 2]))) := by
  obtain ⟨h1, h2, h3⟩ := claim4_concat (Enumerable.from' (.arr [Val.num 1]))
    (Enumerable.from' (.arr [Val.num 2])) (agrees_arr _) (agrees_arr _)
  exact ⟨h1, h2 (by decide), h3⟩

/-- C5: for every well-formed Handle `H` and every `n ≥ 0`,
`H.take(n).concat(H.skip(n)).toArray()` equals `H.toArray()`: splitting at
`n` and re-concatenating reconstructs the original content and order. -/
theorem claim5_roundtrip (H : Enumerable) (n : Int) (ha : Agrees H) (hn : 0 ≤ n) :
    ((H.take n).concat (.handle (H.skip n))).toArray = H.toArray := by
  rw [toArray_agrees _ (agrees_concat (H.take n) (.handle (H.skip n))
      (agrees_take H n ha hn) (agrees_skip H n ha hn)),
    toArray_agrees H ha,
    show iterate ((H.take n).concat (.handle (H.skip n))) =
      takeGen (iterate H) n ++ skipGen (iterate H) n from rfl,
    takeGen_eq, skipGen_eq, List.take_append_drop]

/-- C5 witness: the roundtrip at a concrete generator-backed (non-seekable)
handle. -/
theorem claim5_witness :
    (((Enumerable.from' (.genFn [Val.num 1, Val.num 2, Val.num 3])).take 2).concat
        (.handle ((Enumerable.from' (.genFn [Val.num 1, Val.num 2, Val.num 3])).skip 2))).toArray =
      (Enumerable.from' (.genFn [Val.num 1, Val.num 2, Val.num 3])).toArray :=
  claim5_roundtrip (Enumerable.from' (.genFn [Val.num 1, Val.num 2, Val.num 3])) 2
    (agrees_genFn _) (by decide)

/-- C6: for every Handle `H` and every `n ≥ 0`, `H.take(n).count()` equals
`min(n, H.count())`, `H.skip(n).count()` equals `max(0, H.count() − n)`, and
both derived Handles have the same seekability as `H`. -/
theorem claim6_take_skip (H : Enumerable) (n : Int) (hn : 0 ≤ n) :
    Enumerable.count (H.take n) = min n (Enumerable.count H) ∧
    Enumerable.count (H.skip n) = max 0 (Enumerable.count H - n) ∧
    canSeekR (H.take n) = canSeekR H ∧
    canSeekR (H.skip n) = canSeekR H :=
  ⟨count_take H n, count_skip H n, canSeekR_take H n, canSeekR_skip H n⟩

/-- C6 witness: the four conclusions at a concrete handle and `n = 1`. -/
theorem claim6_witness :
    Enumerable.count ((Enumerable.from' (.arr [Val.num 5, Val.num 6])).take 1) =
      min 1 (Enumerable.count (Enumerable.from' (.arr [Val.num 5, Val.num 6]))) ∧
    Enumerable.count ((Enumerable.from' (.arr [Val.num 5, Val.num 6])).skip 1) =
      max 0 (Enumerable.count (Enumerable.from' (.arr [Val.num 5, Val.num 6])) - 1) ∧
    canSeekR ((Enumerable.from' (.arr [Val.num 5, Val.num 6])).take 1) =
      canSeekR (Enumerable.from' (.arr [Val.num 5, Val.num 6])) ∧
    canSeekR ((Enumerable.from' (.arr [Val.num 5, Val.num 6])).skip 1) =
      canSeekR (Enumerable.from' (.arr [Val.num 5, Val.num 6])) :=
  claim6_take_skip (Enumerable.from' (.arr [Val.num 5, Val.num 6])) 1 (by decide)

/-- C7: reading the strict `length` property on a non-seekable Handle
throws UnsupportedEagerAccess, while on a seekable Handle it returns the
same value as `count()`; a Handle constructed from a generator function is
not seekable, yet its `count()` succeeds and returns the number of items
one scan yields. -/
theorem claim7_length_guard (H : Enumerable) :
    (canSeekR H = false →
      Enumerable.length H = .error .unsupportedEagerAccess) ∧
    (canSeekR H = true → Enumerable.length H = .ok (Enumerable.count H)) ∧
    (∀ L : List Val,
      Enumerable.count (mkEnumerable (.genFn L)) = (L.length : Int) ∧
      canSeekR (mkEnumerable (.genFn L)) = false) := by
  refine ⟨?_, ?_, fun L => ⟨rfl, rfl⟩⟩
  · intro hcs
    have hcs' : (_ensureInternalTryGetAt H)._canSeek = false := hcs
    show (if (_ensureInternalTryGetAt H)._canSeek then
        Except.ok (Enumerable.count (_ensureInternalTryGetAt H))
      else Except.error Err.unsupportedEagerAccess) = _
    rw [hcs']
    rfl
  · intro hcs
    have hcs' : (_ensureInternalTryGetAt H)._canSeek = true := hcs
    show (if (_ensureInternalTryGetAt H)._canSeek then
        Except.ok (Enumerable.count (_ensureInternalTryGetAt H))
      else Except.error Err.unsupportedEagerAccess) = _
    rw [hcs', if_pos rfl, count_eTGA]

/-- C7 witness: `length` throws on a concrete generator-backed handle whose
`count()` is 2, and returns `count()` on a concrete array-backed handle. -/
theorem claim7_witness :
    Enumerable.length (mkEnumerable (.genFn [Val.num 1, Val.num 2])) =
      .error .unsupportedEagerAccess ∧
    Enumerable.count (mkEnumerable (.genFn [Val.num 1, Val.num 2])) = 2 ∧
    Enumerable.length (Enumerable.from' (.arr [Val.num 1])) =
      .ok (Enumerable.count (Enumerable.from' (.arr [Val.num 1]))) :=
  ⟨(claim7_length_guard (mkEnumerable (.genFn [Val.num 1, Val.num 2]))).1 rfl,
    by decide,
    (claim7_length_guard (Enumerable.from' (.arr [Val.num 1]))).2.1 rfl⟩

/-- C8 counterexample: `stats`/`min`/`max` do NOT coerce non-numeric
elements to the NaN sentinel — `min()` over the single-string sequence
`['a']` returns the string itself, and `stats()` records it as both minimum
and maximum. -/
theorem claim8_counterexample :
    (Enumerable.from' (.arr [Val.str "a"])).min none = Val.str "a" ∧
    (Enumerable.from' (.arr [Val.str "a"])).stats none =
      ⟨1, Val.str "a", Val.str "a"⟩ ∧
    Val.str "a" ≠ Val.nan := by
  decide

/-- C8 (amended): on the empty sequence `stats()` returns
`{count: 0, min: undefined, max: undefined}` and `sum()`, `min()`, `max()`
return `undefined` rather than zero; only the sum aggregate coerces
non-numeric elements to the NaN sentinel (via `_toNumber`), so a sequence
containing any non-number sums to NaN; `stats`/`min`/`max` instead compare
the raw elements with the comparer, never throwing. -/
theorem claim8_amended_aggregates (H : Enumerable) :
    (iterate H = [] →
      H.stats none = ⟨0, .undef, .undef⟩ ∧ H.sum = .undef ∧
      H.min none = .undef ∧ H.max none = .undef) ∧
    ((∃ v, v ∈ iterate H ∧ isNumberType v = false) →
      (H.sumAndCount).sum = .nan) := by
  constructor
  · intro hit
    refine ⟨?_, ?_, ?_, ?_⟩
    · show statsLoop _defaultComparer (iterate H) ⟨0, .undef, .undef⟩ = _
      rw [hit]
      rfl
    · show (if (sumLoop (iterate H) ⟨.num 0, 0⟩).count = 0 then Val.undef
        else (sumLoop (iterate H) ⟨.num 0, 0⟩).sum) = _
      rw [hit]
      rfl
    · show (if (statsLoop _defaultComparer (iterate H) ⟨0, .undef, .undef⟩).count = 0
          then Val.undef
        else (statsLoop _defaultComparer (iterate H) ⟨0, .undef, .undef⟩).min) = _
      rw [hit]
      rfl
    · show (if (statsLoop _defaultComparer (iterate H) ⟨0, .undef, .undef⟩).count = 0
          then Val.undef
        else (statsLoop _defaultComparer (iterate H) ⟨0, .undef, .undef⟩).max) = _
      rw [hit]
      rfl
  · intro hex
    exact sumLoop_mem_nan (iterate H) ⟨.num 0, 0⟩ le_rfl hex

/-- C8 witness: the empty-sequence conclusions at the empty array handle,
and the NaN coercion of `sum` at a sequence containing a string. -/
theorem claim8_witness :
    (Enumerable.from' (.arr [])).stats none = ⟨0, .undef, .undef⟩ ∧
    (Enumerable.from' (.arr [])).sum = .undef ∧
    (Enumerable.from' (.arr [])).min none = .undef ∧
    (Enumerable.from' (.arr [])).max none = .undef ∧
    ((Enumerable.from' (.arr [Val.num 1, Val.str "a"])).sumAndCount).sum = .nan := by
  obtain ⟨h1, h2, h3, h4⟩ := (claim8_amended_aggregates (Enumerable.from' (.arr []))).1 rfl
  refine ⟨h1, h2, h3, h4, ?_⟩
  exact (claim8_amended_aggregates
    (Enumerable.from' (.arr [Val.num 1, Val.str "a"]))).2 ⟨Val.str "a", by decide, rfl⟩

/-- C9: the constructor's `_ensureIterable` guard first requires a truthy
value (`if (src)`), then accepts the iterable-or-generator sources, and
fails synchronously with InvalidSource on every non-iterable,
non-generator value (also on the falsy — though iterable — empty string);
successful construction resolves nothing (all three capability fields
unresolved, `_wasIterated` false, so the source is not iterated); and
`from` on an existing Handle returns that same Handle unchanged. -/
theorem claim9_construction :
    (∀ s : Src, isTruthy s = true → constructE (.src s) = .ok (mkEnumerable s)) ∧
    constructE (.src (.str "")) = .error .invalidSource ∧
    constructE .nullish = .error .invalidSource ∧
    constructE .other = .error .invalidSource ∧
    (∀ s : Src, (mkEnumerable s)._count = none ∧ (mkEnumerable s)._tryGetAt = none ∧
      (mkEnumerable s)._canSeek = false ∧ (mkEnumerable s)._wasIterated = false) ∧
    (∀ h : Enumerable, Enumerable.from' (.handle h) = h) := by
  refine ⟨?_, rfl, rfl, rfl, fun s => ⟨rfl, rfl, rfl, rfl⟩, fun h => rfl⟩
  intro s hs
  cases s with
  | arr l => rfl
  | genFn l => rfl
  | handle h => rfl
  | str s' =>
    simp only [constructE, _ensureIterable, hs, if_true]
    rfl

/-- C9 witness: concrete truthy sources (an array and a non-empty string)
construct successfully into unresolved handles. -/
theorem claim9_witness :
    constructE (.src (.arr [Val.num 1])) = .ok (mkEnumerable (.arr [Val.num 1])) ∧
    constructE (.src (.str "abc")) = .ok (mkEnumerable (.str "abc")) :=
  ⟨claim9_construction.1 (.arr [Val.num 1]) rfl,
    claim9_construction.1 (.str "abc") (by decide)⟩

/-- C10: for a well-formed seekable Handle and `i ∈ [0, count)`, the
positional lookup of `select(f)` applies `f` to the parent's element with
the value only (the missing index argument, modelled as `none`); it agrees
with the `i`-th element produced by iterating the projection (which calls
`f` with the item and its position) under the hypothesis that `f` ignores
its index argument — and there is a selector reading its index for which
lookup and iteration disagree. -/
theorem claim10_select_lookup (H : Enumerable) (f : Val → Option Int → Val)
    (i : Int) (ha : Agrees H) (hseek : canSeekR H = true) (h0 : 0 ≤ i)
    (hlt : i < Enumerable.count H) :
    tryGetAtR (H.select f) i = (tryGetAtR H i).map (fun v => f v none) ∧
    ((∀ v j, f v j = f v none) →
      tryGetAtR (H.select f) i = (iterate (H.select f)).get? i.toNat) ∧
    (∃ g : Val → Option Int → Val,
      tryGetAtR ((Enumerable.from' (.arr [Val.num 5])).select g) 0 ≠
        (iterate ((Enumerable.from' (.arr [Val.num 5])).select g)).get? 0) := by
  obtain ⟨hc, hg⟩ := ha
  refine ⟨?_, ?_, ?_⟩
  · rw [tryGetAtR_select]
    cases tryGetAtR H i <;> rfl
  · intro hf
    rw [tryGetAtR_select, iterate_select, selectGen_get, hg i h0]
    cases hx : (iterate H).get? i.toNat with
    | none => rfl
    | some v =>
      show some (f v none) = some (f v (some (0 + (i.toNat : Int))))
      rw [hf v (some (0 + (i.toNat : Int)))]
  · exact ⟨fun _ j => match j with
      | some k => Val.num k
      | none => Val.nan, by decide⟩

/-- C10 witness: lookup equals mapped parent lookup and matches iteration
for an index-insensitive selector at a concrete handle and index. -/
theorem claim10_witness :
    tryGetAtR ((Enumerable.from' (.arr [Val.num 10, Val.num 20])).select
        (fun v _ => v)) 1 =
      (iterate ((Enumerable.from' (.arr [Val.num 10, Val.num 20])).select
        (fun v _ => v))).get? (1 : Int).toNat :=
  (claim10_select_lookup (Enumerable.from' (.arr [Val.num 10, Val.num 20]))
    (fun v _ => v) 1 (agrees_arr _) rfl (by decide) (by decide)).2.1
    (fun v j => rfl)

end Linqer
